import Mathlib

/-!
Verification of the yfinance quote-gateway microservice
(src/backend/yfinance-service.py) against its specification.

The service is shallowly embedded: timestamps and prices are rationals,
symbols are lists of characters, the upstream provider is an oracle
argument, and blocking effects (rate-limit checks, sleeps, fetch calls)
are recorded in an explicit event trace.
-/

/-! ## Symbols and asset classification -/

/-- Asset classification tag (strings `'CRYPTO'` / `'STOCK'` in the source). -/
inductive AssetType where
  | CRYPTO
  | STOCK
deriving DecidableEq, Repr

/-- Boolean test that `pat` is a leading segment of `s`
(mirrors the leading-match step of Python substring search). -/
def pfxB : List Char → List Char → Bool
  | [], _ => true
  | _ :: _, [] => false
  | a :: as, b :: bs => a == b && pfxB as bs

/-- Boolean substring containment: Python `pat in s` for strings. -/
def containsSub (pat : List Char) : List Char → Bool
  | [] => pfxB pat []
  | c :: rest => pfxB pat (c :: rest) || containsSub pat rest

/-- Boolean test that `pat` is a trailing segment of `s` (Python `s.endswith(pat)`).
Used only to state the specification's trailing-suffix classification rule. -/
def sfxB (pat s : List Char) : Bool :=
  pfxB pat.reverse s.reverse

/-- Python `symbol.upper()` (ASCII uppercasing of each character). -/
def upperChars (s : List Char) : List Char :=
  s.map Char.toUpper

/-- The fixed crypto-pair marker `'-USD'` from the source. -/
def cryptoMarker : List Char := "-USD".toList

/-- Asset classification from the source
(`'CRYPTO' if '-USD' in symbol.upper() else 'STOCK'`, lines 118 and 166). -/
def classify (symbol : List Char) : AssetType :=
  if containsSub cryptoMarker (upperChars symbol) then .CRYPTO else .STOCK

/-! ## Quote computation and the retry engine (`fetch_quote_with_retry`) -/

/-- The numeric payload of a successful fetch. -/
structure QuoteData where
  currentPrice : ℚ
  change24h : ℚ
  changePercentage : ℚ
  volume : ℤ
deriving DecidableEq, Repr

/-- Result of `fetch_quote_with_retry`: the success dict or the failure dict. -/
inductive QuoteResult where
  | success (q : QuoteData)
  | failure (errMsg : List Char)
deriving DecidableEq, Repr

/-- The fixed failure message of `fetch_quote_with_retry` (line 99). -/
def noDataMsg : List Char := "No data available after retries".toList

/-- One upstream attempt outcome: a historical series (close prices oldest to
newest, volumes) or a raised transport/provider exception with a message. -/
inductive FetchOutcome where
  | series (closes : List ℚ) (vols : List ℤ)
  | raise (msg : List Char)

/-- Lines 62-83 of the source: given a (possibly empty) history, either `none`
(history empty) or the computed quote fields.  `closes.getLast?` is
`Close.iloc[-1]`, `closes.reverse.get? 1` is `Close.iloc[-2]`, the percent
change is guarded by `if previous_close`, and the volume defaults to 0 when
unavailable. -/
def quoteFromHistory (closes : List ℚ) (vols : List ℤ) : Option QuoteData :=
  match closes.getLast? with
  | none => none
  | some current =>
      if 1 < closes.length then
        let prev := (closes.reverse.get? 1).getD 0
        let change := current - prev
        let pct := if prev ≠ 0 then change / prev * 100 else 0
        some ⟨current, change, pct, (vols.getLast?).getD 0⟩
      else
        some ⟨current, 0, 0, (vols.getLast?).getD 0⟩

/-- The retry loop of `fetch_quote_with_retry` (lines 55-99), unrolled on a
fuel argument equal to the remaining attempts.  `attempt` is the 0-based loop
index; `oracle attempt` is the outcome of the upstream call on that attempt.
The result is `(attempts made, sleeps performed in seconds, final result)`.
A sleep of `(attempt + 1) * 2` seconds (an integer in the source) occurs after
a failed attempt exactly when `attempt < max_retries - 1`. -/
def fetchLoop (oracle : ℕ → FetchOutcome) (maxRetries : ℕ) :
    ℕ → ℕ → ℕ × List ℕ × QuoteResult
  | _, 0 => (0, [], .failure noDataMsg)
  | attempt, fuel + 1 =>
      let sl : List ℕ := if attempt + 1 < maxRetries then [(attempt + 1) * 2] else []
      match oracle attempt with
      | .series closes vols =>
          match quoteFromHistory closes vols with
          | some q => (1, [], .success q)
          | none =>
              let r := fetchLoop oracle maxRetries (attempt + 1) fuel
              (r.1 + 1, sl ++ r.2.1, r.2.2)
      | .raise _ =>
          let r := fetchLoop oracle maxRetries (attempt + 1) fuel
          (r.1 + 1, sl ++ r.2.1, r.2.2)

/-- `fetch_quote_with_retry(symbol, max_retries)`: run the loop from attempt 0
with `max_retries` attempts available. -/
def fetchQuoteWithRetry (oracle : ℕ → FetchOutcome) (maxRetries : ℕ) :
    ℕ × List ℕ × QuoteResult :=
  fetchLoop oracle maxRetries 0 maxRetries

/-- An attempt outcome that does not produce a quote: a raised exception, or a
series whose history is empty. -/
def attemptFails : FetchOutcome → Bool
  | .raise _ => true
  | .series closes _ => closes.isEmpty

/-! ## Normalized quotes -/

/-- The externally visible quote record (the wall-clock `lastUpdated` field of
the single-quote path is time-of-call data outside this model). -/
structure NormalizedQuote where
  symbol : List Char
  assetType : AssetType
  currentPrice : ℚ
  change24h : ℚ
  changePercentage : ℚ
  volume : ℤ
  marketCap : Option ℚ
deriving DecidableEq, Repr

/-- Build the response record from a successful fetch (lines 120-129 and
168-176 of the source): uppercased symbol, classification, computed fields,
`marketCap` always null. -/
def mkQuote (symbol : List Char) (q : QuoteData) : NormalizedQuote :=
  { symbol := upperChars symbol
    assetType := classify symbol
    currentPrice := q.currentPrice
    change24h := q.change24h
    changePercentage := q.changePercentage
    volume := q.volume
    marketCap := none }

/-! ## Rate limiter (`rate_limit`, lines 27-51) -/

/-- The admission ceiling `MAX_REQUESTS_PER_MINUTE`. -/
def MAX_REQUESTS_PER_MINUTE : ℕ := 30

/-- Line 36: keep exactly the timestamps `ts` with `now - ts < 60`. -/
def pruneWindow (now : ℚ) (tss : List ℚ) : List ℚ :=
  tss.filter (fun ts => decide (now - ts < 60))

/-- Outcome of one admission check: the decision and the new shared state. -/
structure AdmitResult where
  admitted : Bool
  state : List ℚ
deriving DecidableEq, Repr

/-- Lines 33-44: prune, reject (recording nothing) when the pruned count is at
or above the ceiling, otherwise append the current timestamp and admit. -/
def rateLimitCheck (now : ℚ) (tss : List ℚ) : AdmitResult :=
  let pruned := pruneWindow now tss
  if MAX_REQUESTS_PER_MINUTE ≤ pruned.length then
    ⟨false, pruned⟩
  else
    ⟨true, pruned ++ [now]⟩

/-- Run a sequence of admission checks at the given instants, threading the
shared timestamp state; returns the admission decisions and the final state. -/
def runChecks (tss : List ℚ) : List ℚ → List Bool × List ℚ
  | [] => ([], tss)
  | t :: ts =>
      let r := rateLimitCheck t tss
      let rest := runChecks r.state ts
      (r.admitted :: rest.1, rest.2)

/-- Reference form of the decisions of `runChecks` when no pruning occurs and
`m` timestamps are already held: admit while the count is below the ceiling. -/
def admitsFrom (m : ℕ) : ℕ → List Bool
  | 0 => []
  | n + 1 =>
      if m < MAX_REQUESTS_PER_MINUTE then true :: admitsFrom (m + 1) n
      else false :: admitsFrom m n

/-! ## Endpoint traces

Blocking actions of the endpoints, in execution order.  Sleep durations are in
milliseconds, so the inter-request delay of 0.5 s is 500 and the batch pacing
delay of 0.3 s is 300, both exact. -/

/-- One observable blocking action of an endpoint. -/
inductive TraceEvent where
  | rateCheck
  | sleepMs (ms : ℕ)
  | fetch (symbol : List Char) (maxRetries : ℕ)
deriving DecidableEq, Repr

/-- Recognizer for rate-limiter consultations in a trace. -/
def isRateCheck : TraceEvent → Bool
  | .rateCheck => true
  | _ => false

/-- Recognizer for fetch calls in a trace. -/
def isFetch : TraceEvent → Bool
  | .fetch _ _ => true
  | _ => false

/-! ## Single-quote endpoint body (`get_quote`, lines 108-135) -/

/-- Body of `get_quote`: fetch with the default budget of 2 attempts; on
failure respond 404, on success respond 200 with the normalized quote.
Returns `((status, payload), trace)`. -/
def get_quote (oracle : ℕ → FetchOutcome) (symbol : List Char) :
    (ℕ × Option NormalizedQuote) × List TraceEvent :=
  match (fetchQuoteWithRetry oracle 2).2.2 with
  | .failure _ => ((404, none), [.fetch symbol 2])
  | .success q => ((200, some (mkQuote symbol q)), [.fetch symbol 2])

/-! ## Batch endpoint body (`get_quotes_batch`, lines 139-187) -/

/-- The batch size cap `max_batch_size` (line 149). -/
def max_batch_size : ℕ := 20

/-- Python dict assignment `results[key] = quote`: replace the entry with this
key if present, otherwise append it. -/
def insertQuote (acc : List (List Char × NormalizedQuote)) (key : List Char)
    (q : NormalizedQuote) : List (List Char × NormalizedQuote) :=
  if acc.any (fun p => p.1 == key) then
    acc.map (fun p => if p.1 == key then (key, q) else p)
  else
    acc ++ [(key, q)]

/-- The per-symbol loop of `get_quotes_batch` (lines 157-181).  `oracleFor s`
is the attempt oracle of symbol `s`; `sfault s = true` models the per-symbol
`except` branch (line 179): an exception raised inside the iteration after the
fetch, which skips the symbol and continues.  `first` is true exactly when no
symbol has been processed yet (`i = 0`), so the 300 ms pacing sleep runs before
every fetch except the first.  Failed symbols add nothing to the mapping. -/
def batchLoop (oracleFor : List Char → ℕ → FetchOutcome) (sfault : List Char → Bool) :
    List (List Char) → Bool → List (List Char × NormalizedQuote) →
    List (List Char × NormalizedQuote) × List TraceEvent
  | [], _, acc => (acc, [])
  | s :: rest, first, acc =>
      let pacing : List TraceEvent := if first then [] else [.sleepMs 300]
      let fr := (fetchQuoteWithRetry (oracleFor s) 1).2.2
      let acc' :=
        match fr with
        | .success q => if sfault s then acc else insertQuote acc (upperChars s) (mkQuote s q)
        | .failure _ => acc
      let r := batchLoop oracleFor sfault rest false acc'
      (r.1, pacing ++ [.fetch s 1] ++ r.2)

/-- Response of the batch body: the mapping on success, or an error status. -/
inductive BatchResp where
  | ok (entries : List (List Char × NormalizedQuote))
  | invalidRequest
deriving DecidableEq, Repr

/-- Body of `get_quotes_batch`: read `symbols` (a missing key defaults to the
empty list, line 143), reject an empty list with 400, silently truncate to the
first 20 entries, then run the per-symbol loop.  Returns `(response, trace)`. -/
def get_quotes_batch (oracleFor : List Char → ℕ → FetchOutcome)
    (sfault : List Char → Bool) (symbolsOpt : Option (List (List Char))) :
    BatchResp × List TraceEvent :=
  let symbols := symbolsOpt.getD []
  if symbols.isEmpty then
    (.invalidRequest, [])
  else
    let symbols := if max_batch_size < symbols.length then symbols.take max_batch_size else symbols
    let r := batchLoop oracleFor sfault symbols true []
    (.ok r.1, r.2)

/-! ## Decorated endpoints (the `@rate_limit()` wrapper applied to a body) -/

/-- `rate_limit()` applied to the single-quote body: check admission against
the shared timestamp state; on rejection respond 429 without fetching, on
admission sleep 500 ms and run the body.  Returns
`((status, payload), trace, new shared state)`. -/
def quoteEndpoint (oracle : ℕ → FetchOutcome) (symbol : List Char)
    (now : ℚ) (tss : List ℚ) :
    (ℕ × Option NormalizedQuote) × List TraceEvent × List ℚ :=
  let r := rateLimitCheck now tss
  if r.admitted then
    let b := get_quote oracle symbol
    (b.1, .rateCheck :: .sleepMs 500 :: b.2, r.state)
  else
    ((429, none), [.rateCheck], r.state)

/-- `rate_limit()` applied to the batch body.  Returns
`((status, entries), trace, new shared state)`; the status is 429 on
rejection, 400 on an empty symbol list, 200 otherwise. -/
def quotesBatchEndpoint (oracleFor : List Char → ℕ → FetchOutcome)
    (sfault : List Char → Bool) (symbolsOpt : Option (List (List Char)))
    (now : ℚ) (tss : List ℚ) :
    (ℕ × List (List Char × NormalizedQuote)) × List TraceEvent × List ℚ :=
  let r := rateLimitCheck now tss
  if r.admitted then
    let b := get_quotes_batch oracleFor sfault symbolsOpt
    match b.1 with
    | .ok entries => ((200, entries), .rateCheck :: .sleepMs 500 :: b.2, r.state)
    | .invalidRequest => ((400, []), .rateCheck :: .sleepMs 500 :: b.2, r.state)
  else
    ((429, []), [.rateCheck], r.state)

/-! ## Search endpoint (`search`, lines 189-216) -/

/-- The provider `info` dictionary fields the search path reads; `none` models
a key absent from the dictionary. -/
structure TickerInfo where
  regularMarketPrice : Option ℚ
  currentPrice : Option ℚ
  previousClose : Option ℚ
  longName : Option (List Char)
deriving DecidableEq

/-- Outcome of the `ticker.info` lookup: the dictionary, or a raised
exception anywhere in the `try` block. -/
inductive InfoOutcome where
  | info (i : TickerInfo)
  | raise

/-- One search result object (lines 205-211). -/
structure SearchResult where
  symbol : List Char
  name : List Char
  assetType : AssetType
  currentPrice : ℚ
  change24h : ℚ
deriving DecidableEq

/-- The `search` endpoint: on a raised exception or a dictionary with neither
`regularMarketPrice` nor `currentPrice`, respond 200 with an empty array;
otherwise respond 200 with one result whose price defaults through
`info.get('regularMarketPrice', info.get('currentPrice', 0))`, whose change is
guarded by `if previous_close`, and whose `assetType` is the literal
`'STOCK'`. -/
def search (outcome : InfoOutcome) (query : List Char) : ℕ × List SearchResult :=
  match outcome with
  | .raise => (200, [])
  | .info i =>
      if i.regularMarketPrice.isNone && i.currentPrice.isNone then
        (200, [])
      else
        let current := (i.regularMarketPrice.getD (i.currentPrice.getD 0))
        let prev := i.previousClose.getD 0
        let change := if prev ≠ 0 then current - prev else 0
        (200, [{ symbol := upperChars query
                 name := i.longName.getD (upperChars query)
                 assetType := .STOCK
                 currentPrice := current
                 change24h := change }])

/-! ## Derived model predicates -/

/-- True when the batch-path fetch (budget 1) of a symbol yields a success. -/
def fetchOk (oracleFor : List Char → ℕ → FetchOutcome) (s : List Char) : Bool :=
  match (fetchQuoteWithRetry (oracleFor s) 1).2.2 with
  | .success _ => true
  | .failure _ => false

/-- True when a batch iteration contributes an entry for its symbol: the
fetch succeeded and no per-symbol exception was raised afterwards. -/
def symAdded (oracleFor : List Char → ℕ → FetchOutcome) (sfault : List Char → Bool)
    (s : List Char) : Bool :=
  fetchOk oracleFor s && !sfault s

/-- The mapping carried by a batch response (empty for the error response). -/
def batchEntries : BatchResp → List (List Char × NormalizedQuote)
  | .ok entries => entries
  | .invalidRequest => []

/-! ## Lemmas about the rate limiter -/

theorem mem_pruneWindow {now x : ℚ} {tss : List ℚ} :
    x ∈ pruneWindow now tss ↔ x ∈ tss ∧ now - x < 60 := by
  simp [pruneWindow, List.mem_filter]

theorem pruneWindow_length_le (now : ℚ) (tss : List ℚ) :
    (pruneWindow now tss).length ≤ tss.length :=
  List.length_filter_le _ _

theorem rateLimitCheck_state_mem {now x : ℚ} {tss : List ℚ}
    (hx : x ∈ (rateLimitCheck now tss).state) : now - x < 60 := by
  unfold rateLimitCheck at hx
  by_cases hc : MAX_REQUESTS_PER_MINUTE ≤ (pruneWindow now tss).length
  · rw [if_pos hc] at hx
    exact (mem_pruneWindow.mp hx).2
  · rw [if_neg hc] at hx
    rcases List.mem_append.mp hx with h | h
    · exact (mem_pruneWindow.mp h).2
    · rw [List.mem_singleton.mp h]
      norm_num

theorem rateLimitCheck_state_length {now : ℚ} {tss : List ℚ}
    (h : tss.length ≤ MAX_REQUESTS_PER_MINUTE) :
    ((rateLimitCheck now tss).state).length ≤ MAX_REQUESTS_PER_MINUTE := by
  have hp := pruneWindow_length_le now tss
  unfold rateLimitCheck
  by_cases hc : MAX_REQUESTS_PER_MINUTE ≤ (pruneWindow now tss).length
  · rw [if_pos hc]
    show (pruneWindow now tss).length ≤ MAX_REQUESTS_PER_MINUTE
    omega
  · rw [if_neg hc]
    show (pruneWindow now tss ++ [now]).length ≤ MAX_REQUESTS_PER_MINUTE
    simp only [List.length_append, List.length_singleton]
    omega

theorem runChecks_state_length : ∀ (times tss : List ℚ),
    tss.length ≤ MAX_REQUESTS_PER_MINUTE →
    ((runChecks tss times).2).length ≤ MAX_REQUESTS_PER_MINUTE
  | [], _, h => h
  | _ :: ts, tss, h => by
      simp only [runChecks]
      exact runChecks_state_length ts _ (rateLimitCheck_state_length h)

theorem runChecks_admits : ∀ (times tss : List ℚ),
    (∀ t ∈ times, ∀ x ∈ tss, t - x < 60) →
    (∀ t ∈ times, ∀ u ∈ times, t - u < 60) →
    (runChecks tss times).1 = admitsFrom tss.length times.length
  | [], _, _, _ => rfl
  | t :: ts, tss, h1, h2 => by
      have hpr : pruneWindow t tss = tss :=
        List.filter_eq_self.mpr fun x hx => by
          simp only [decide_eq_true_eq]
          exact h1 t (List.mem_cons_self t ts) x hx
      have h1ts : ∀ t' ∈ ts, ∀ x ∈ tss, t' - x < 60 :=
        fun t' ht' x hx => h1 t' (List.mem_cons_of_mem _ ht') x hx
      have h2ts : ∀ t' ∈ ts, ∀ u ∈ ts, t' - u < 60 :=
        fun t' ht' u hu =>
          h2 t' (List.mem_cons_of_mem _ ht') u (List.mem_cons_of_mem _ hu)
      by_cases hc : MAX_REQUESTS_PER_MINUTE ≤ tss.length
      · have hstep : rateLimitCheck t tss = ⟨false, tss⟩ := by
          rw [rateLimitCheck, hpr, if_pos hc]
        have ih := runChecks_admits ts tss h1ts h2ts
        simp only [runChecks, hstep, List.length_cons, admitsFrom, if_neg (by omega : ¬ tss.length < MAX_REQUESTS_PER_MINUTE)]
        exact congrArg _ ih
      · have hstep : rateLimitCheck t tss = ⟨true, tss ++ [t]⟩ := by
          rw [rateLimitCheck, hpr, if_neg hc]
        have h1t : ∀ t' ∈ ts, ∀ x ∈ tss ++ [t], t' - x < 60 := by
          intro t' ht' x hx
          rcases List.mem_append.mp hx with h | h
          · exact h1ts t' ht' x h
          · rw [List.mem_singleton.mp h]
            exact h2 t' (List.mem_cons_of_mem _ ht') t (List.mem_cons_self t ts)
        have ih := runChecks_admits ts (tss ++ [t]) h1t h2ts
        simp only [runChecks, hstep, List.length_cons, admitsFrom, if_pos (by omega : tss.length < MAX_REQUESTS_PER_MINUTE)]
        rw [ih]
        simp [List.length_append]

theorem admitsFrom_get? : ∀ (n m k : ℕ), k < n →
    (admitsFrom m n).get? k = some (decide (m + k < MAX_REQUESTS_PER_MINUTE))
  | 0, _, _, h => absurd h (Nat.not_lt_zero _)
  | n + 1, m, 0, _ => by
      by_cases hm : m < MAX_REQUESTS_PER_MINUTE
      · simp [admitsFrom, hm]
      · have : ¬ (m + 0 < MAX_REQUESTS_PER_MINUTE) := by omega
        simp [admitsFrom, hm, this]
  | n + 1, m, k + 1, h => by
      by_cases hm : m < MAX_REQUESTS_PER_MINUTE
      · simp only [admitsFrom, if_pos hm, List.get?_cons_succ]
        rw [admitsFrom_get? n (m + 1) k (by omega)]
        simp only [Option.some.injEq, decide_eq_decide]
        omega
      · simp only [admitsFrom, if_neg hm, List.get?_cons_succ]
        rw [admitsFrom_get? n m k (by omega)]
        simp only [Option.some.injEq, decide_eq_decide]
        omega

/-- Claim C1: on every admission check all timestamps at least 60 seconds old
are pruned; a pruned count at or above the ceiling of 30 rejects the call (the
endpoint answers 429) recording nothing; otherwise the current timestamp is
appended and the call admitted.  After any check the state holds at most 30
timestamps, all within the trailing 60-second window, and for any sequence of
checks inside one 60-second window starting from the fresh state the k-th
check is admitted exactly when k < 30: the first 30 are admitted and the 31st
is rejected. -/
theorem C1_rate_limiter_invariant (now : ℚ) (tss : List ℚ) (times : List ℚ)
    (a : ℚ) (hwin : ∀ t ∈ times, a ≤ t ∧ t < a + 60) :
    (∀ x ∈ (rateLimitCheck now tss).state, now - x < 60)
    ∧ (MAX_REQUESTS_PER_MINUTE ≤ (pruneWindow now tss).length →
        (rateLimitCheck now tss).admitted = false
        ∧ (rateLimitCheck now tss).state = pruneWindow now tss)
    ∧ ((pruneWindow now tss).length < MAX_REQUESTS_PER_MINUTE →
        (rateLimitCheck now tss).admitted = true
        ∧ (rateLimitCheck now tss).state = pruneWindow now tss ++ [now])
    ∧ ((rateLimitCheck now tss).admitted = false →
        ∀ oracleFor sfault symbolsOpt,
          (quotesBatchEndpoint oracleFor sfault symbolsOpt now tss).1.1 = 429)
    ∧ (tss.length ≤ MAX_REQUESTS_PER_MINUTE →
        ((rateLimitCheck now tss).state).length ≤ MAX_REQUESTS_PER_MINUTE)
    ∧ ((runChecks [] times).2).length ≤ MAX_REQUESTS_PER_MINUTE
    ∧ (∀ k, k < times.length →
        ((runChecks [] times).1).get? k
          = some (decide (k < MAX_REQUESTS_PER_MINUTE))) := by
  refine ⟨fun x hx => rateLimitCheck_state_mem hx, ?_, ?_, ?_, ?_, ?_, ?_⟩
  · intro hc
    rw [rateLimitCheck, if_pos hc]
    exact ⟨rfl, rfl⟩
  · intro hc
    rw [rateLimitCheck, if_neg (by omega)]
    exact ⟨rfl, rfl⟩
  · intro hrej oracleFor sfault symbolsOpt
    rw [quotesBatchEndpoint, hrej]
    rfl
  · exact rateLimitCheck_state_length
  · exact runChecks_state_length times [] (by simp [MAX_REQUESTS_PER_MINUTE])
  · intro k hk
    have h2 : ∀ t ∈ times, ∀ u ∈ times, t - u < 60 := by
      intro t ht u hu
      have h1 := hwin t ht
      have h2 := hwin u hu
      linarith
    rw [runChecks_admits times [] (by simp) h2]
    have := admitsFrom_get? times.length 0 k hk
    simpa using this

/-- Witness for C1 at a concrete input: one check at time 0 inside the window
anchored at 0. -/
theorem C1_rate_limiter_invariant_witness :
    (∀ t ∈ ([0] : List ℚ), (0 : ℚ) ≤ t ∧ t < 0 + 60)
    ∧ ((∀ x ∈ (rateLimitCheck 1 []).state, (1 : ℚ) - x < 60)
    ∧ (MAX_REQUESTS_PER_MINUTE ≤ (pruneWindow 1 []).length →
        (rateLimitCheck 1 []).admitted = false
        ∧ (rateLimitCheck 1 []).state = pruneWindow 1 [])
    ∧ ((pruneWindow 1 []).length < MAX_REQUESTS_PER_MINUTE →
        (rateLimitCheck 1 []).admitted = true
        ∧ (rateLimitCheck 1 []).state = pruneWindow 1 [] ++ [1])
    ∧ ((rateLimitCheck 1 []).admitted = false →
        ∀ oracleFor sfault symbolsOpt,
          (quotesBatchEndpoint oracleFor sfault symbolsOpt 1 []).1.1 = 429)
    ∧ (([] : List ℚ).length ≤ MAX_REQUESTS_PER_MINUTE →
        ((rateLimitCheck 1 []).state).length ≤ MAX_REQUESTS_PER_MINUTE)
    ∧ ((runChecks [] ([0] : List ℚ)).2).length ≤ MAX_REQUESTS_PER_MINUTE
    ∧ (∀ k, k < ([0] : List ℚ).length →
        ((runChecks [] ([0] : List ℚ)).1).get? k
          = some (decide (k < MAX_REQUESTS_PER_MINUTE)))) :=
  ⟨by norm_num, C1_rate_limiter_invariant 1 [] [0] 0 (by norm_num)⟩

/-! ## Lemmas about the retry engine -/

theorem quoteFromHistory_nil (vols : List ℤ) : quoteFromHistory [] vols = none := rfl

theorem quoteFromHistory_isEmpty {closes : List ℚ} (vols : List ℤ)
    (h : closes.isEmpty = true) : quoteFromHistory closes vols = none := by
  rw [List.isEmpty_iff.mp h]
  rfl

theorem fetchLoop_attempts_le (oracle : ℕ → FetchOutcome) (maxRetries : ℕ) :
    ∀ (fuel attempt : ℕ), (fetchLoop oracle maxRetries attempt fuel).1 ≤ fuel
  | 0, _ => Nat.le_refl 0
  | fuel + 1, attempt => by
      rw [fetchLoop]
      rcases oracle attempt with ⟨closes, vols⟩ | msg
      · rcases hq : quoteFromHistory closes vols with _ | q
        · simp only [hq]
          have := fetchLoop_attempts_le oracle maxRetries fuel (attempt + 1)
          omega
        · simp only [hq]
          omega
      · simp only
        have := fetchLoop_attempts_le oracle maxRetries fuel (attempt + 1)
        omega

theorem fetchLoop_sleeps (oracle : ℕ → FetchOutcome) (maxRetries : ℕ) :
    ∀ (fuel attempt : ℕ), attempt + fuel = maxRetries →
      ∃ j, j ≤ fuel - 1 ∧ (fetchLoop oracle maxRetries attempt fuel).2.1
        = (List.range j).map (fun k => (attempt + k + 1) * 2)
  | 0, _, _ => ⟨0, Nat.le_refl 0, rfl⟩
  | fuel + 1, attempt, hsum => by
      rw [fetchLoop]
      rcases oracle attempt with ⟨closes, vols⟩ | msg
      · rcases hq : quoteFromHistory closes vols with _ | q
        · simp only [hq]
          rcases fetchLoop_sleeps oracle maxRetries fuel (attempt + 1) (by omega) with ⟨j, hj, heq⟩
          by_cases hlt : attempt + 1 < maxRetries
          · refine ⟨j + 1, by omega, ?_⟩
            rw [if_pos hlt, heq, List.range_succ_eq_map, List.map_cons, List.map_map]
            simp only [List.cons_append, List.nil_append, List.singleton_append]
            congr 1
            apply List.map_congr_left
            intro k _
            simp only [Function.comp_apply, Nat.succ_eq_add_one]
            ring
          · have hfuel : fuel = 0 := by omega
            subst hfuel
            have hj0 : j = 0 := by omega
            subst hj0
            refine ⟨0, Nat.le_refl 0, ?_⟩
            rw [if_neg hlt]
            simpa using heq
        · exact ⟨0, by omega, by simp [hq]⟩
      · simp only
        rcases fetchLoop_sleeps oracle maxRetries fuel (attempt + 1) (by omega) with ⟨j, hj, heq⟩
        by_cases hlt : attempt + 1 < maxRetries
        · refine ⟨j + 1, by omega, ?_⟩
          rw [if_pos hlt, heq, List.range_succ_eq_map, List.map_cons, List.map_map]
          simp only [List.singleton_append]
          congr 1
          apply List.map_congr_left
          intro k _
          simp only [Function.comp_apply, Nat.succ_eq_add_one]
          ring
        · have hfuel : fuel = 0 := by omega
          subst hfuel
          have hj0 : j = 0 := by omega
          subst hj0
          refine ⟨0, Nat.le_refl 0, ?_⟩
          rw [if_neg hlt]
          simpa using heq

theorem fetchLoop_all_fail (oracle : ℕ → FetchOutcome) (maxRetries : ℕ) :
    ∀ (fuel attempt : ℕ), attempt + fuel = maxRetries →
      (∀ i, attempt ≤ i → i < maxRetries → attemptFails (oracle i) = true) →
      fetchLoop oracle maxRetries attempt fuel
        = (fuel, (List.range (fuel - 1)).map (fun k => (attempt + k + 1) * 2),
           .failure noDataMsg)
  | 0, _, _, _ => rfl
  | fuel + 1, attempt, hsum, hfails => by
      have hatt : attempt < maxRetries := by omega
      have hthis := hfails attempt (Nat.le_refl _) hatt
      have ih := fetchLoop_all_fail oracle maxRetries fuel (attempt + 1) (by omega)
        (fun i hi hilt => hfails i (by omega) hilt)
      rw [fetchLoop]
      rcases ho : oracle attempt with ⟨closes, vols⟩ | msg
      · rw [ho] at hthis
        have hq : quoteFromHistory closes vols = none :=
          quoteFromHistory_isEmpty vols hthis
        simp only [hq, ih]
        by_cases hlt : attempt + 1 < maxRetries
        · rw [if_pos hlt]
          have hfuel : 1 ≤ fuel := by omega
          refine Prod.ext (by omega) (Prod.ext ?_ rfl)
          show (attempt + 1) * 2 ::
              (List.range (fuel - 1)).map (fun k => (attempt + 1 + k + 1) * 2)
            = (List.range (fuel + 1 - 1)).map (fun k => (attempt + k + 1) * 2)
          obtain ⟨f, rfl⟩ : ∃ f, fuel = f + 1 := ⟨fuel - 1, by omega⟩
          rw [show f + 1 + 1 - 1 = f + 1 from rfl, List.range_succ_eq_map,
            List.map_cons, List.map_map]
          simp only [Nat.add_sub_cancel]
          congr 1
          apply List.map_congr_left
          intro k _
          simp only [Function.comp_apply, Nat.succ_eq_add_one]
          ring
        · have hfuel : fuel = 0 := by omega
          subst hfuel
          rw [if_neg hlt]
          simp [ih]
      · simp only [ih]
        by_cases hlt : attempt + 1 < maxRetries
        · rw [if_pos hlt]
          refine Prod.ext (by omega) (Prod.ext ?_ rfl)
          show (attempt + 1) * 2 ::
              (List.range (fuel - 1)).map (fun k => (attempt + 1 + k + 1) * 2)
            = (List.range (fuel + 1 - 1)).map (fun k => (attempt + k + 1) * 2)
          obtain ⟨f, rfl⟩ : ∃ f, fuel = f + 1 := ⟨fuel - 1, by omega⟩
          rw [show f + 1 + 1 - 1 = f + 1 from rfl, List.range_succ_eq_map,
            List.map_cons, List.map_map]
          simp only [Nat.add_sub_cancel]
          congr 1
          apply List.map_congr_left
          intro k _
          simp only [Function.comp_apply, Nat.succ_eq_add_one]
          ring
        · have hfuel : fuel = 0 := by omega
          subst hfuel
          rw [if_neg hlt]
          simp [ih]

/-- Claim C2: with `maxAttempts ≥ 1` the retry fetch makes at most
`maxAttempts` upstream attempts; its sleeps form the progressive sequence
2s, 4s, ... with at most `maxAttempts - 1` entries; and when every attempt
fails it makes exactly `maxAttempts` attempts, sleeps exactly the
`maxAttempts - 1` progressive delays, and returns the failure whose reason is
the fixed message `No data available after retries`. -/
theorem C2_retry_engine (oracle : ℕ → FetchOutcome) (maxAttempts : ℕ)
    (_h : 1 ≤ maxAttempts) :
    (fetchQuoteWithRetry oracle maxAttempts).1 ≤ maxAttempts
    ∧ (∃ j, j ≤ maxAttempts - 1
        ∧ (fetchQuoteWithRetry oracle maxAttempts).2.1
            = (List.range j).map (fun k => (k + 1) * 2))
    ∧ ((∀ i, i < maxAttempts → attemptFails (oracle i) = true) →
        fetchQuoteWithRetry oracle maxAttempts
          = (maxAttempts,
             (List.range (maxAttempts - 1)).map (fun k => (k + 1) * 2),
             .failure noDataMsg)) := by
  refine ⟨fetchLoop_attempts_le oracle maxAttempts maxAttempts 0, ?_, ?_⟩
  · rcases fetchLoop_sleeps oracle maxAttempts maxAttempts 0 (by omega) with ⟨j, hj, heq⟩
    exact ⟨j, hj, by simpa using heq⟩
  · intro hfails
    have := fetchLoop_all_fail oracle maxAttempts maxAttempts 0 (by omega)
      (fun i _ hilt => hfails i hilt)
    simpa using this

/-- Witness for C2: two attempts, both raising a transport error; the loop
makes 2 attempts, sleeps once for 2 seconds, and fails with the fixed
message. -/
theorem C2_retry_engine_witness :
    (1 ≤ 2)
    ∧ ((fetchQuoteWithRetry (fun _ => .raise []) 2).1 ≤ 2
    ∧ (∃ j, j ≤ 2 - 1
        ∧ (fetchQuoteWithRetry (fun _ => .raise []) 2).2.1
            = (List.range j).map (fun k => (k + 1) * 2))
    ∧ ((∀ i, i < 2 → attemptFails ((fun _ => FetchOutcome.raise []) i) = true) →
        fetchQuoteWithRetry (fun _ => .raise []) 2
          = (2, (List.range (2 - 1)).map (fun k => (k + 1) * 2),
             .failure noDataMsg))) :=
  ⟨by norm_num, C2_retry_engine (fun _ => .raise []) 2 (by norm_num)⟩

/-- Claim C4 counterexample: on the two-point series `[100, 110]` the code
computes `changePercentage = change / previous_close * 100 = 10 / 100 * 100 =
10`, not approximately `9.09` as the claim states. -/
theorem C4_counterexample :
    (quoteFromHistory [100, 110] []).map QuoteData.changePercentage = some 10
    ∧ ¬ (|(10 : ℚ) - 909 / 100| < 1 / 2) := by
  constructor
  · simp only [quoteFromHistory]
    norm_num
  · rw [abs_sub_lt_iff]
    norm_num

/-- Claim C4 (amended): given the two-point series `[100.0, 110.0]` (oldest to
newest), `get_quote` answers 200 with `currentPrice = 110`, `change24h = 10`
(latest close minus prior close) and `changePercentage = 10` (change divided
by the prior close times 100). -/
theorem C4_two_point_series (vols : List ℤ) (symbol : List Char) :
    (get_quote (fun _ => .series [100, 110] vols) symbol).1
      = (200, some (mkQuote symbol ⟨110, 10, 10, (vols.getLast?).getD 0⟩)) := by
  have hq : quoteFromHistory [100, 110] vols
      = some ⟨110, 10, 10, (vols.getLast?).getD 0⟩ := by
    simp only [quoteFromHistory]
    norm_num
  simp [get_quote, fetchQuoteWithRetry, fetchLoop, hq]

/-- Claim C8 counterexample: on the series `[0, 110]` whose prior close is 0
the code computes `change24h = current - previous = 110 - 0 = 110`, not 0 as
the claim states (only the percentage is guarded). -/
theorem C8_counterexample :
    (quoteFromHistory [0, 110] []).map QuoteData.change24h = some 110
    ∧ (110 : ℚ) ≠ 0 := by
  constructor
  · simp only [quoteFromHistory]
    norm_num
  · norm_num

/-- Claim C8 (amended): a single-point series yields `change24h = 0` and
`changePercentage = 0`; a series whose prior close is 0 yields
`changePercentage = 0` through the divide-by-zero guard, while its `change24h`
equals the current price (current minus the zero prior close), and the quote
is still produced. -/
theorem C8_zero_prior_guard (c : ℚ) (vols : List ℤ) (closes : List ℚ)
    (hprev : closes.reverse.get? 1 = some 0) :
    quoteFromHistory [c] vols = some ⟨c, 0, 0, (vols.getLast?).getD 0⟩
    ∧ ∃ cur, closes.getLast? = some cur
        ∧ quoteFromHistory closes vols
            = some ⟨cur, cur, 0, (vols.getLast?).getD 0⟩ := by
  constructor
  · rfl
  · have hlt : 1 < closes.reverse.length := (List.get?_eq_some.mp hprev).1
    have hlen : 1 < closes.length := by simpa using hlt
    obtain ⟨cur, hcur⟩ : ∃ cur, closes.getLast? = some cur := by
      rcases closes with _ | ⟨a, as⟩
      · simp at hlen
      · exact ⟨(a :: as).getLast (by simp), rfl⟩
    refine ⟨cur, hcur, ?_⟩
    simp only [quoteFromHistory, hcur, hprev, if_pos hlen]
    norm_num

/-- Witness for C8 at a concrete input: the single-point series `[7]` and the
two-point series `[0, 5]` whose prior close is 0. -/
theorem C8_zero_prior_guard_witness :
    (([0, 5] : List ℚ).reverse.get? 1 = some 0)
    ∧ (quoteFromHistory [7] [] = some ⟨7, 0, 0, (([] : List ℤ).getLast?).getD 0⟩
    ∧ ∃ cur, ([0, 5] : List ℚ).getLast? = some cur
        ∧ quoteFromHistory [0, 5] []
            = some ⟨cur, cur, 0, (([] : List ℤ).getLast?).getD 0⟩) :=
  ⟨rfl, C8_zero_prior_guard 7 [] [0, 5] rfl⟩

/-! ## Lemmas about substring containment -/

theorem pfxB_iff : ∀ (p s : List Char), pfxB p s = true ↔ ∃ t, s = p ++ t
  | [], s => by simp [pfxB]
  | a :: as, [] => by simp [pfxB]
  | a :: as, b :: bs => by
      rw [pfxB, Bool.and_eq_true, beq_iff_eq, pfxB_iff as bs]
      constructor
      · rintro ⟨rfl, t, rfl⟩
        exact ⟨t, rfl⟩
      · rintro ⟨t, ht⟩
        rcases List.cons.injEq .. ▸ ht with ⟨rfl, rfl⟩
        exact ⟨rfl, t, rfl⟩

theorem containsSub_iff : ∀ (p s : List Char),
    containsSub p s = true ↔ ∃ u v, s = u ++ p ++ v
  | p, [] => by
      rw [containsSub, pfxB_iff]
      constructor
      · rintro ⟨t, ht⟩
        exact ⟨[], t, by simpa using ht⟩
      · rintro ⟨u, v, huv⟩
        have h0 := List.append_eq_nil.mp huv.symm
        have h1 := List.append_eq_nil.mp h0.1
        exact ⟨[], by simp [h1.2]⟩
  | p, c :: rest => by
      rw [containsSub, Bool.or_eq_true, pfxB_iff, containsSub_iff p rest]
      constructor
      · rintro (⟨t, ht⟩ | ⟨u, v, huv⟩)
        · exact ⟨[], t, by simpa using ht⟩
        · exact ⟨c :: u, v, by simp [huv]⟩
      · rintro ⟨u, v, huv⟩
        rcases u with _ | ⟨u0, u'⟩
        · exact Or.inl ⟨v, by simpa using huv⟩
        · right
          rcases List.cons.injEq .. ▸ huv with ⟨rfl, hrest⟩
          exact ⟨u', v, hrest⟩

/-- Claim C5 counterexample: the code classifies by substring containment of
`-USD`, not by a trailing suffix: the symbol `BTC-USDT` is classified CRYPTO
although `-USD` is not a trailing suffix of it. -/
theorem C5_counterexample :
    classify "BTC-USDT".toList = .CRYPTO
    ∧ sfxB cryptoMarker (upperChars "BTC-USDT".toList) = false := by
  constructor
  · rfl
  · rfl

/-- Claim C5 (amended): classification (applied to the raw symbol in both the
single-quote and batch paths through `mkQuote`) yields CRYPTO exactly when the
case-insensitively uppercased symbol contains `-USD` as a substring anywhere,
and STOCK otherwise; in particular `BTC-USD` is CRYPTO and `AAPL` is STOCK. -/
theorem C5_asset_classification (s : List Char) :
    (classify s = .CRYPTO ↔ ∃ u v, upperChars s = u ++ cryptoMarker ++ v)
    ∧ (∀ q, (mkQuote s q).assetType = classify s)
    ∧ classify "BTC-USD".toList = .CRYPTO
    ∧ classify "AAPL".toList = .STOCK := by
  refine ⟨?_, fun q => rfl, rfl, rfl⟩
  rw [← containsSub_iff]
  unfold classify
  by_cases hc : containsSub cryptoMarker (upperChars s) = true
  · simp [hc]
  · simp [hc]

/-! ## Lemmas about the batch loop -/

theorem length_insertQuote (acc : List (List Char × NormalizedQuote))
    (key : List Char) (q : NormalizedQuote) :
    (insertQuote acc key q).length ≤ acc.length + 1 := by
  unfold insertQuote
  by_cases hc : acc.any (fun p => p.1 == key) = true
  · rw [if_pos hc, List.length_map]
    omega
  · rw [if_neg hc, List.length_append]
    simp

theorem mem_keys_insertQuote (acc : List (List Char × NormalizedQuote))
    (key k : List Char) (q : NormalizedQuote) :
    k ∈ (insertQuote acc key q).map Prod.fst ↔ k = key ∨ k ∈ acc.map Prod.fst := by
  unfold insertQuote
  by_cases hc : acc.any (fun p => p.1 == key) = true
  · rw [if_pos hc]
    have hmap : (acc.map (fun p => if p.1 == key then (key, q) else p)).map Prod.fst
        = acc.map Prod.fst := by
      rw [List.map_map]
      apply List.map_congr_left
      intro p _
      by_cases hp : (p.1 == key) = true
      · simp only [Function.comp_apply, if_pos hp]
        exact (eq_of_beq hp).symm
      · simp only [Function.comp_apply, if_neg hp]
    rw [hmap]
    have hkey : key ∈ acc.map Prod.fst := by
      rcases List.any_eq_true.mp hc with ⟨p, hp, hbeq⟩
      exact List.mem_map.mpr ⟨p, hp, eq_of_beq hbeq⟩
    constructor
    · exact Or.inr
    · rintro (rfl | h)
      · exact hkey
      · exact h
  · rw [if_neg hc, List.map_append]
    simp only [List.map_cons, List.map_nil, List.mem_append, List.mem_singleton,
      List.not_mem_nil, or_false]
    exact or_comm

theorem batchLoop_length (oracleFor : List Char → ℕ → FetchOutcome)
    (sfault : List Char → Bool) : ∀ (l : List (List Char)) (first : Bool)
    (acc : List (List Char × NormalizedQuote)),
    (batchLoop oracleFor sfault l first acc).1.length ≤ acc.length + l.length
  | [], _, acc => by simp [batchLoop]
  | s :: rest, first, acc => by
      rw [batchLoop]
      rcases hfr : (fetchQuoteWithRetry (oracleFor s) 1).2.2 with q | msg
      · simp only [hfr]
        by_cases hsf : sfault s = true
        · rw [if_pos hsf]
          have := batchLoop_length oracleFor sfault rest false acc
          simp only [List.length_cons]
          omega
        · rw [if_neg hsf]
          have h1 := batchLoop_length oracleFor sfault rest false
            (insertQuote acc (upperChars s) (mkQuote s q))
          have h2 := length_insertQuote acc (upperChars s) (mkQuote s q)
          simp only [List.length_cons]
          omega
      · simp only [hfr]
        have := batchLoop_length oracleFor sfault rest false acc
        simp only [List.length_cons]
        omega

theorem batchLoop_keys (oracleFor : List Char → ℕ → FetchOutcome)
    (sfault : List Char → Bool) : ∀ (l : List (List Char)) (first : Bool)
    (acc : List (List Char × NormalizedQuote)) (k : List Char),
    k ∈ (batchLoop oracleFor sfault l first acc).1.map Prod.fst ↔
      (k ∈ acc.map Prod.fst
        ∨ ∃ s ∈ l, symAdded oracleFor sfault s = true ∧ upperChars s = k)
  | [], _, acc, k => by
      simp only [batchLoop]
      constructor
      · exact Or.inl
      · rintro (h | ⟨s, hs, _⟩)
        · exact h
        · exact absurd hs (List.not_mem_nil s)
  | s :: rest, first, acc, k => by
      rw [batchLoop]
      rcases hfr : (fetchQuoteWithRetry (oracleFor s) 1).2.2 with q | msg
      · by_cases hsf : sfault s = true
        · simp only [hfr, if_pos hsf]
          rw [batchLoop_keys oracleFor sfault rest false acc k]
          have hadd : symAdded oracleFor sfault s = false := by
            simp [symAdded, hsf]
          simp only [List.mem_cons]
          constructor
          · rintro (h | ⟨s', hs', hgood, hup⟩)
            · exact Or.inl h
            · exact Or.inr ⟨s', Or.inr hs', hgood, hup⟩
          · rintro (h | ⟨s', hs' | hs', hgood, hup⟩)
            · exact Or.inl h
            · rw [hs'] at hgood
              rw [hadd] at hgood
              cases hgood
            · exact Or.inr ⟨s', hs', hgood, hup⟩
        · simp only [hfr, if_neg hsf]
          rw [batchLoop_keys oracleFor sfault rest false _ k,
            mem_keys_insertQuote]
          have hadd : symAdded oracleFor sfault s = true := by
            simp [symAdded, fetchOk, hfr, hsf]
          simp only [List.mem_cons]
          constructor
          · rintro ((rfl | h) | ⟨s', hs', hgood, hup⟩)
            · exact Or.inr ⟨s, Or.inl rfl, hadd, rfl⟩
            · exact Or.inl h
            · exact Or.inr ⟨s', Or.inr hs', hgood, hup⟩
          · rintro (h | ⟨s', hs' | hs', hgood, hup⟩)
            · exact Or.inl (Or.inr h)
            · rw [hs'] at hup
              exact Or.inl (Or.inl hup.symm)
            · exact Or.inr ⟨s', hs', hgood, hup⟩
      · simp only [hfr]
        rw [batchLoop_keys oracleFor sfault rest false acc k]
        have hadd : symAdded oracleFor sfault s = false := by
          simp [symAdded, fetchOk, hfr]
        simp only [List.mem_cons]
        constructor
        · rintro (h | ⟨s', hs', hgood, hup⟩)
          · exact Or.inl h
          · exact Or.inr ⟨s', Or.inr hs', hgood, hup⟩
        · rintro (h | ⟨s', hs' | hs', hgood, hup⟩)
          · exact Or.inl h
          · rw [hs'] at hgood
            rw [hadd] at hgood
            cases hgood
          · exact Or.inr ⟨s', hs', hgood, hup⟩

theorem batchLoop_trace_false (oracleFor : List Char → ℕ → FetchOutcome)
    (sfault : List Char → Bool) : ∀ (l : List (List Char))
    (acc : List (List Char × NormalizedQuote)),
    (batchLoop oracleFor sfault l false acc).2
      = l.flatMap (fun s => [TraceEvent.sleepMs 300, TraceEvent.fetch s 1])
  | [], acc => by simp [batchLoop]
  | s :: rest, acc => by
      rw [batchLoop]
      rcases hfr : (fetchQuoteWithRetry (oracleFor s) 1).2.2 with q | msg
      · by_cases hsf : sfault s = true
        · simp only [hfr, if_pos hsf]
          rw [batchLoop_trace_false oracleFor sfault rest _]
          simp [List.flatMap_cons]
        · simp only [hfr, if_neg hsf]
          rw [batchLoop_trace_false oracleFor sfault rest _]
          simp [List.flatMap_cons]
      · simp only [hfr]
        rw [batchLoop_trace_false oracleFor sfault rest _]
        simp [List.flatMap_cons]

theorem batchLoop_trace_cons (oracleFor : List Char → ℕ → FetchOutcome)
    (sfault : List Char → Bool) (s : List Char) (rest : List (List Char))
    (acc : List (List Char × NormalizedQuote)) :
    (batchLoop oracleFor sfault (s :: rest) true acc).2
      = TraceEvent.fetch s 1
        :: rest.flatMap (fun t => [TraceEvent.sleepMs 300, TraceEvent.fetch t 1]) := by
  rw [batchLoop]
  rcases hfr : (fetchQuoteWithRetry (oracleFor s) 1).2.2 with q | msg
  · by_cases hsf : sfault s = true
    · simp only [hfr, if_pos hsf]
      rw [batchLoop_trace_false]
      simp
    · simp only [hfr, if_neg hsf]
      rw [batchLoop_trace_false]
      simp
  · simp only [hfr]
    rw [batchLoop_trace_false]
    simp

theorem bind_trace_no_rateCheck (l : List (List Char)) :
    ∀ e ∈ l.flatMap (fun s => [TraceEvent.sleepMs 300, TraceEvent.fetch s 1]),
      isRateCheck e = false := by
  intro e he
  rcases List.mem_flatMap.mp he with ⟨s, _, hmem⟩
  simp only [List.mem_cons, List.mem_singleton, List.not_mem_nil, or_false] at hmem
  rcases hmem with rfl | rfl <;> rfl

theorem get_quotes_batch_processed (oracleFor : List Char → ℕ → FetchOutcome)
    (sfault : List Char → Bool) (symbolsOpt : Option (List (List Char)))
    (h : ¬ (symbolsOpt.getD []).isEmpty = true) :
    get_quotes_batch oracleFor sfault symbolsOpt
      = (.ok (batchLoop oracleFor sfault
            ((symbolsOpt.getD []).take max_batch_size) true []).1,
         (batchLoop oracleFor sfault
            ((symbolsOpt.getD []).take max_batch_size) true []).2) := by
  unfold get_quotes_batch
  rw [if_neg h]
  by_cases hlen : max_batch_size < (symbolsOpt.getD []).length
  · rw [if_pos hlen]
  · rw [if_neg hlen, List.take_of_length_le (by omega)]

/-- Claim C3: in a non-empty batch a failing symbol (fetch exhausted or a
per-symbol exception) is simply omitted: the batch is not aborted, the
response is always the success mapping `ok entries` (even when every symbol
failed and the mapping is empty), and a key is present in the mapping exactly
when some processed symbol uppercasing to it succeeded. -/
theorem C3_batch_failure_isolation (oracleFor : List Char → ℕ → FetchOutcome)
    (sfault : List Char → Bool) (symbols : List (List Char))
    (hne : symbols ≠ []) :
    ∃ entries, (get_quotes_batch oracleFor sfault (some symbols)).1 = .ok entries
      ∧ ∀ k, (k ∈ entries.map Prod.fst
          ↔ ∃ s ∈ symbols.take max_batch_size,
              symAdded oracleFor sfault s = true ∧ upperChars s = k) := by
  have hemp : ¬ (((some symbols).getD []).isEmpty = true) := by
    simpa [List.isEmpty_iff] using hne
  rw [get_quotes_batch_processed oracleFor sfault _ hemp]
  refine ⟨_, rfl, fun k => ?_⟩
  rw [batchLoop_keys oracleFor sfault _ true [] k]
  simp

/-- Witness for C3 at the specification's example: five symbols where the
third fails all its attempts; the response is the success mapping, the four
other uppercased symbols are present and the third is absent. -/
theorem C3_batch_failure_isolation_witness :
    (["AAA".toList, "BBB".toList, "CCC".toList, "DDD".toList, "EEE".toList] ≠
      ([] : List (List Char)))
    ∧ ∃ entries,
        (get_quotes_batch
          (fun s => if s = "CCC".toList then fun _ => .raise [] else
            fun _ => .series [100, 110] [1])
          (fun _ => false)
          (some ["AAA".toList, "BBB".toList, "CCC".toList, "DDD".toList,
            "EEE".toList])).1 = .ok entries
        ∧ ∀ k, (k ∈ entries.map Prod.fst
            ↔ ∃ s ∈ (["AAA".toList, "BBB".toList, "CCC".toList, "DDD".toList,
                "EEE".toList] : List (List Char)).take max_batch_size,
                symAdded
                  (fun s => if s = "CCC".toList then fun _ => .raise [] else
                    fun _ => .series [100, 110] [1])
                  (fun _ => false) s = true ∧ upperChars s = k) :=
  ⟨by simp,
   C3_batch_failure_isolation _ _ _ (by simp)⟩

/-- Claim C6: the batch body answers 400 `InvalidRequest` exactly when the
symbols list is missing or empty; a list longer than 20 is silently truncated
to its first 20 entries (processing is identical to a batch of the first 20),
and the response mapping holds at most 20 keys. -/
theorem C6_batch_validation (oracleFor : List Char → ℕ → FetchOutcome)
    (sfault : List Char → Bool) (l : List (List Char))
    (hlong : max_batch_size < l.length) :
    (∀ symbolsOpt, ((get_quotes_batch oracleFor sfault symbolsOpt).1
        = .invalidRequest ↔ symbolsOpt.getD [] = []))
    ∧ get_quotes_batch oracleFor sfault (some l)
        = get_quotes_batch oracleFor sfault (some (l.take max_batch_size))
    ∧ (batchEntries (get_quotes_batch oracleFor sfault (some l)).1).length
        ≤ max_batch_size := by
  refine ⟨?_, ?_, ?_⟩
  · intro symbolsOpt
    unfold get_quotes_batch
    by_cases hemp : (symbolsOpt.getD []).isEmpty = true
    · rw [if_pos hemp]
      simp [List.isEmpty_iff.mp hemp]
    · rw [if_neg hemp]
      constructor
      · intro hcontra
        cases hcontra
      · intro hnil
        exact absurd (List.isEmpty_iff.mpr hnil) hemp
  · have hne : ¬ ((l : List (List Char)).isEmpty = true) := by
      rw [List.isEmpty_iff]
      intro hnil
      rw [hnil] at hlong
      simp [max_batch_size] at hlong
    have hlong20 : 20 < l.length := hlong
    have hne2 : ¬ ((l.take max_batch_size).isEmpty = true) := by
      rw [List.isEmpty_iff]
      intro hnil
      have hlen := congrArg List.length hnil
      rw [List.length_take] at hlen
      simp only [List.length_nil] at hlen
      have hlen20 : min 20 l.length = 0 := hlen
      omega
    rw [get_quotes_batch_processed oracleFor sfault (some l) (by simpa using hne),
      get_quotes_batch_processed oracleFor sfault (some (l.take max_batch_size))
        (by simpa using hne2)]
    simp [List.take_take]
  · have hne : ¬ ((l : List (List Char)).isEmpty = true) := by
      rw [List.isEmpty_iff]
      intro hnil
      rw [hnil] at hlong
      simp [max_batch_size] at hlong
    rw [get_quotes_batch_processed oracleFor sfault (some l) (by simpa using hne)]
    show (batchLoop oracleFor sfault (l.take max_batch_size) true []).1.length
      ≤ max_batch_size
    have h1 := batchLoop_length oracleFor sfault (l.take max_batch_size) true []
    have h2 : (l.take max_batch_size).length ≤ max_batch_size := by
      rw [List.length_take]
      exact Nat.min_le_left _ _
    calc (batchLoop oracleFor sfault (l.take max_batch_size) true []).1.length
        ≤ ([] : List (List Char × NormalizedQuote)).length
            + (l.take max_batch_size).length := h1
      _ ≤ max_batch_size := by
          simp only [List.length_nil, Nat.zero_add]
          exact h2

/-- Witness for C6 at a concrete input: a 25-symbol batch. -/
theorem C6_batch_validation_witness :
    (max_batch_size < (List.replicate 25 "A".toList).length)
    ∧ ((∀ symbolsOpt, ((get_quotes_batch (fun _ _ => FetchOutcome.raise [])
          (fun _ => false) symbolsOpt).1
        = .invalidRequest ↔ symbolsOpt.getD [] = []))
    ∧ get_quotes_batch (fun _ _ => FetchOutcome.raise []) (fun _ => false)
          (some (List.replicate 25 "A".toList))
        = get_quotes_batch (fun _ _ => FetchOutcome.raise []) (fun _ => false)
          (some ((List.replicate 25 "A".toList).take max_batch_size))
    ∧ (batchEntries (get_quotes_batch (fun _ _ => FetchOutcome.raise [])
          (fun _ => false) (some (List.replicate 25 "A".toList))).1).length
        ≤ max_batch_size) :=
  ⟨by simp [max_batch_size],
   C6_batch_validation _ _ _ (by simp [max_batch_size])⟩

/-- Claim C7: the rate limiter is consulted exactly once per batch call (the
trace of the decorated endpoint holds exactly one rate-check event whether
admitted or rejected); the admitted batch body fetches the processed symbols
strictly in input order with a 300 ms pacing sleep before every fetch except
the first, each with the reduced attempt budget 1; the single-quote body
fetches with budget 2. -/
theorem C7_batch_orchestration (oracleFor : List Char → ℕ → FetchOutcome)
    (sfault : List Char → Bool) (symbolsOpt : Option (List (List Char)))
    (now : ℚ) (tss : List ℚ) (s0 : List Char) (rest : List (List Char))
    (hcons : (symbolsOpt.getD []).take max_batch_size = s0 :: rest) :
    ((quotesBatchEndpoint oracleFor sfault symbolsOpt now tss).2.1.countP
        (fun e => isRateCheck e)) = 1
    ∧ (get_quotes_batch oracleFor sfault symbolsOpt).2
        = TraceEvent.fetch s0 1
          :: rest.flatMap (fun t => [TraceEvent.sleepMs 300, TraceEvent.fetch t 1])
    ∧ (∀ oracle symbol, (get_quote oracle symbol).2
        = [TraceEvent.fetch symbol 2]) := by
  have hne : ¬ ((symbolsOpt.getD []).isEmpty = true) := by
    rw [List.isEmpty_iff]
    intro hnil
    rw [hnil] at hcons
    cases hcons
  have hbody : (get_quotes_batch oracleFor sfault symbolsOpt).2
      = TraceEvent.fetch s0 1
        :: rest.flatMap (fun t => [TraceEvent.sleepMs 300, TraceEvent.fetch t 1]) := by
    rw [get_quotes_batch_processed oracleFor sfault symbolsOpt hne]
    show (batchLoop oracleFor sfault ((symbolsOpt.getD []).take max_batch_size)
        true []).2 = _
    rw [hcons, batchLoop_trace_cons]
  refine ⟨?_, hbody, ?_⟩
  · unfold quotesBatchEndpoint
    by_cases hadm : (rateLimitCheck now tss).admitted = true
    · rw [if_pos hadm]
      have hzero : ((get_quotes_batch oracleFor sfault symbolsOpt).2.countP
          (fun e => isRateCheck e)) = 0 := by
        rw [List.countP_eq_zero]
        rw [hbody]
        intro e he
        rcases List.mem_cons.mp he with rfl | he2
        · simp [isRateCheck]
        · simp [bind_trace_no_rateCheck _ e he2]
      rcases hresp : (get_quotes_batch oracleFor sfault symbolsOpt).1 with entries | _
      · simp only [hresp, List.countP_cons]
        rw [hzero]
        rfl
      · simp only [hresp, List.countP_cons]
        rw [hzero]
        rfl
    · rw [if_neg hadm]
      rfl
  · intro oracle symbol
    unfold get_quote
    rcases (fetchQuoteWithRetry oracle 2).2.2 with q | msg <;> rfl

/-- Witness for C7 at a concrete input: a one-symbol batch. -/
theorem C7_batch_orchestration_witness :
    (((some [ "AAPL".toList ] : Option (List (List Char))).getD
        []).take max_batch_size = "AAPL".toList :: [])
    ∧ (((quotesBatchEndpoint (fun _ _ => FetchOutcome.raise [])
          (fun _ => false) (some [ "AAPL".toList ]) 0 []).2.1.countP
        (fun e => isRateCheck e)) = 1
    ∧ (get_quotes_batch (fun _ _ => FetchOutcome.raise [])
          (fun _ => false) (some [ "AAPL".toList ])).2
        = TraceEvent.fetch "AAPL".toList 1
          :: ([] : List (List Char)).flatMap
              (fun t => [TraceEvent.sleepMs 300, TraceEvent.fetch t 1])
    ∧ (∀ oracle symbol, (get_quote oracle symbol).2
        = [TraceEvent.fetch symbol 2])) :=
  ⟨rfl, C7_batch_orchestration _ _ _ 0 [] _ _ rfl⟩

/-- Claim C9: the search endpoint always answers 200 with an array of 0 or 1
results: the array is empty both when the provider info has no usable price
field and when an exception is raised anywhere in the lookup; no error status
is ever produced on that path. -/
theorem C9_search_never_errors (outcome : InfoOutcome) (query : List Char) :
    (search outcome query).1 = 200
    ∧ (search outcome query).2.length ≤ 1
    ∧ (search .raise query).2 = []
    ∧ (∀ pc ln, (search (.info ⟨none, none, pc, ln⟩) query).2 = []) := by
  refine ⟨?_, ?_, rfl, fun pc ln => rfl⟩
  · rcases outcome with i | _
    · simp only [search]
      by_cases hc : (i.regularMarketPrice.isNone && i.currentPrice.isNone) = true
      · rw [if_pos hc]
      · rw [if_neg hc]
    · rfl
  · rcases outcome with i | _
    · simp only [search]
      by_cases hc : (i.regularMarketPrice.isNone && i.currentPrice.isNone) = true
      · rw [if_pos hc]
        simp
      · rw [if_neg hc]
        simp
    · simp [search]

/-- Claim C10: every result object the search endpoint returns carries the
literal STOCK asset type, regardless of the query, even for a crypto-pair
symbol such as BTC-USD that the quote and batch paths classify as CRYPTO. -/
theorem C10_search_always_stock (outcome : InfoOutcome) (query : List Char)
    (r : SearchResult) (hr : r ∈ (search outcome query).2) :
    r.assetType = .STOCK ∧ classify "BTC-USD".toList = .CRYPTO := by
  refine ⟨?_, rfl⟩
  rcases outcome with i | _
  · simp only [search] at hr
    by_cases hc : (i.regularMarketPrice.isNone && i.currentPrice.isNone) = true
    · rw [if_pos hc] at hr
      simp at hr
    · rw [if_neg hc] at hr
      rw [List.mem_singleton.mp hr]
  · simp [search] at hr

/-- Witness for C10 at a concrete input: a priced BTC-USD info lookup whose
single search result is tagged STOCK. -/
theorem C10_search_always_stock_witness :
    ((⟨upperChars "BTC-USD".toList, upperChars "BTC-USD".toList, .STOCK, 5, 0⟩ :
        SearchResult)
      ∈ (search (.info ⟨some 5, none, none, none⟩) "BTC-USD".toList).2)
    ∧ ((⟨upperChars "BTC-USD".toList, upperChars "BTC-USD".toList, .STOCK, 5, 0⟩ :
        SearchResult).assetType = .STOCK
      ∧ classify "BTC-USD".toList = .CRYPTO) :=
  have hmem : (⟨upperChars "BTC-USD".toList, upperChars "BTC-USD".toList,
      .STOCK, 5, 0⟩ : SearchResult)
      ∈ (search (.info ⟨some 5, none, none, none⟩) "BTC-USD".toList).2 :=
    List.mem_singleton.mpr rfl
  ⟨hmem, C10_search_always_stock _ _ _ hmem⟩
